import Mathlib

/-!
Verification of propositions/operators.py: syntactic conversion of
propositional formulas to restricted operator bases.

The formula data model, the root classifiers, the variable-set derivation
and the truth-table evaluator live in collaborator modules
(propositions/syntax.py, propositions/semantics.py) that are not part of
the source tree; they are modelled here from the specification (sections 3
and 6).  The five reduction functions are translated directly from
src/propositions/operators.py.
-/

/-- Modelled from the spec (section 3): the single unary operator of the
source basis is negation, written with the tilde symbol. -/
inductive UnOp where
  | not
  deriving DecidableEq, Repr

/-- Modelled from the spec (section 3): the binary operator symbols.  In
the Python source these are the strings for which the root classifier
returns binary: conjunction, disjunction, implication, xor, iff, nand,
nor. -/
inductive BinOp where
  | and
  | or
  | implies
  | xor
  | iff
  | nand
  | nor
  deriving DecidableEq, Repr

/-- Modelled from the spec (section 3): an immutable formula node, one of a
variable (holding a name), a constant (truth, written T, or falsehood,
written F, held here as a Bool with true standing for T), a unary
application, or a binary application with two order-significant children.
The shape invariants of the Python class (a binary node has exactly two
children, a leaf has none) are enforced by the inductive type itself, and
exhaustive matching on the constructors plays the role of the root
classifiers is_variable, is_constant, is_unary, is_binary. -/
inductive Formula where
  | var (name : String)
  | const (b : Bool)
  | unary (op : UnOp) (first : Formula)
  | binary (op : BinOp) (first second : Formula)
  deriving DecidableEq, Repr

/-- The root symbol of a node, as the string the Python object stores;
used only to build error messages, exactly as the source does. -/
def Formula.rootStr : Formula → String
  | .var n => n
  | .const true => "T"
  | .const false => "F"
  | .unary .not _ => "~"
  | .binary .and _ _ => "&"
  | .binary .or _ _ => "|"
  | .binary .implies _ _ => "->"
  | .binary .xor _ _ => "+"
  | .binary .iff _ _ => "<->"
  | .binary .nand _ _ => "-&"
  | .binary .nor _ _ => "-|"

/-- Modelled from the spec (section 3, variable-set derivation): the set of
distinct variable names occurring anywhere in the tree, here as a
duplicate-free list.  The iteration order of the Python set is
unspecified; the reductions below only ever consult this set on a
constant node, where it is empty, so the order in which this model lists
the names is irrelevant to every claim. -/
def Formula.variables : Formula → List String
  | .var n => [n]
  | .const _ => []
  | .unary _ f => f.variables
  | .binary _ a b => (a.variables ++ b.variables).dedup

/-- Modelled from the spec (sections 1 and 6): the truth-table evaluator
assumed as an external collaborator, with the standard semantics of the
eleven root kinds.  An assignment is modelled as a total valuation of
variable names. -/
def evaluate (f : Formula) (v : String → Bool) : Bool :=
  match f with
  | .var n => v n
  | .const b => b
  | .unary .not g => !(evaluate g v)
  | .binary op a b =>
    match op with
    | .and => evaluate a v && evaluate b v
    | .or => evaluate a v || evaluate b v
    | .implies => !(evaluate a v) || evaluate b v
    | .xor => Bool.xor (evaluate a v) (evaluate b v)
    | .iff => evaluate a v == evaluate b v
    | .nand => !(evaluate a v && evaluate b v)
    | .nor => !(evaluate a v || evaluate b v)

/-- Translation of to_not_and_or (operators.py, lines 13 to 56).  The
constant case reads the variable set of the node being rewritten (the
Python line var = next(iter(formula.variables()), p): formula there is
the constant node itself), falling back to the default name p; the binary
case reduces both children first and then dispatches on the original
root.  The final raise of the Python function is unreachable here because
the binary-operator type enumerates exactly the roots the classifier
accepts, so the function is total. -/
def to_not_and_or : Formula → Formula
  | .var n => .var n
  | .const b =>
    let var := ((Formula.const b).variables).headD "p"
    if b then
      .binary .or (.var var) (.unary .not (.var var))
    else
      .binary .and (.var var) (.unary .not (.var var))
  | .unary .not f => .unary .not (to_not_and_or f)
  | .binary op a b =>
    let left := to_not_and_or a
    let right := to_not_and_or b
    match op with
    | .and => .binary .and left right
    | .or => .binary .or left right
    | .implies => .binary .or (.unary .not left) right
    | .xor =>
      .binary .or (.binary .and left (.unary .not right))
        (.binary .and (.unary .not left) right)
    | .iff =>
      .binary .or (.binary .and left right)
        (.binary .and (.unary .not left) (.unary .not right))
    | .nand => .unary .not (.binary .and left right)
    | .nor => .unary .not (.binary .or left right)

/-- Translation of the inner convert of to_not_and (operators.py, lines 70
to 82): variables unchanged, negation rewrapped, conjunction recombined,
disjunction rewritten by De Morgan; any other root (a constant or another
binary operator) raises ValueError, modelled as an Except error carrying
the same message.  The first child is converted before the second, so the
leftmost failure propagates, as in Python. -/
def notAndConvert : Formula → Except String Formula
  | .var n => .ok (.var n)
  | .unary .not f =>
    match notAndConvert f with
    | .ok g => .ok (.unary .not g)
    | .error e => .error e
  | .binary .and a b =>
    match notAndConvert a with
    | .error e => .error e
    | .ok ga =>
      match notAndConvert b with
      | .error e => .error e
      | .ok gb => .ok (.binary .and ga gb)
  | .binary .or a b =>
    match notAndConvert a with
    | .error e => .error e
    | .ok ga =>
      match notAndConvert b with
      | .error e => .error e
      | .ok gb =>
        .ok (.unary .not
          (.binary .and (.unary .not ga) (.unary .not gb)))
  | f => .error ("Unexpected operator: " ++ f.rootStr)

/-- Translation of to_not_and (operators.py, lines 58 to 83): convert the
result of to_not_and_or. -/
def to_not_and (formula : Formula) : Except String Formula :=
  notAndConvert (to_not_and_or formula)

/-- Translation of the inner convert of to_nand (operators.py, lines 97 to
112): negation becomes self-nand, conjunction becomes the nand of the
nand with itself, disjunction becomes the nand of the two self-nands; any
other root raises. -/
def nandConvert : Formula → Except String Formula
  | .var n => .ok (.var n)
  | .unary .not f =>
    match nandConvert f with
    | .ok a => .ok (.binary .nand a a)
    | .error e => .error e
  | .binary .and x y =>
    match nandConvert x with
    | .error e => .error e
    | .ok a =>
      match nandConvert y with
      | .error e => .error e
      | .ok b => .ok (.binary .nand (.binary .nand a b) (.binary .nand a b))
  | .binary .or x y =>
    match nandConvert x with
    | .error e => .error e
    | .ok a =>
      match nandConvert y with
      | .error e => .error e
      | .ok b =>
        .ok (.binary .nand (.binary .nand a a) (.binary .nand b b))
  | f => .error ("Unexpected operator: " ++ f.rootStr)

/-- Translation of to_nand (operators.py, lines 85 to 113): convert the
result of to_not_and_or. -/
def to_nand (formula : Formula) : Except String Formula :=
  nandConvert (to_not_and_or formula)

/-- Translation of the inner convert of to_implies_not (operators.py,
lines 127 to 139): negation rewrapped, disjunction a or b becomes
(not a) implies b, conjunction a and b becomes not (a implies not b); any
other root raises. -/
def impliesNotConvert : Formula → Except String Formula
  | .var n => .ok (.var n)
  | .unary .not f =>
    match impliesNotConvert f with
    | .ok g => .ok (.unary .not g)
    | .error e => .error e
  | .binary .or x y =>
    match impliesNotConvert x with
    | .error e => .error e
    | .ok a =>
      match impliesNotConvert y with
      | .error e => .error e
      | .ok b => .ok (.binary .implies (.unary .not a) b)
  | .binary .and x y =>
    match impliesNotConvert x with
    | .error e => .error e
    | .ok a =>
      match impliesNotConvert y with
      | .error e => .error e
      | .ok b =>
        .ok (.unary .not (.binary .implies a (.unary .not b)))
  | f => .error ("Unexpected operator: " ++ f.rootStr)

/-- Translation of to_implies_not (operators.py, lines 115 to 140):
convert the result of to_not_and_or. -/
def to_implies_not (formula : Formula) : Except String Formula :=
  impliesNotConvert (to_not_and_or formula)

/-- Translation of the inner convert of to_implies_false (operators.py,
lines 154 to 165): variables and the constant F unchanged, the constant T
becomes F implies F, negation of a becomes a implies F, implication
recombined; any other root raises. -/
def impliesFalseConvert : Formula → Except String Formula
  | .var n => .ok (.var n)
  | .const b =>
    if b then .ok (.binary .implies (.const false) (.const false))
    else .ok (.const false)
  | .unary .not f =>
    match impliesFalseConvert f with
    | .ok g => .ok (.binary .implies g (.const false))
    | .error e => .error e
  | .binary .implies x y =>
    match impliesFalseConvert x with
    | .error e => .error e
    | .ok a =>
      match impliesFalseConvert y with
      | .error e => .error e
      | .ok b => .ok (.binary .implies a b)
  | f => .error ("Unexpected operator: " ++ f.rootStr)

/-- Translation of to_implies_false (operators.py, lines 142 to 166):
convert the result of to_implies_not, whose own error, were it possible,
would propagate first. -/
def to_implies_false (formula : Formula) : Except String Formula :=
  match to_implies_not formula with
  | .ok g => impliesFalseConvert g
  | .error e => .error e

/-- Every node is a variable, a negation, a conjunction or a disjunction:
the target basis of to_not_and_or and exactly the set of roots handled by
the inner converts of to_not_and, to_nand and to_implies_not. -/
def onlyNotAndOr : Formula → Bool
  | .var _ => true
  | .const _ => false
  | .unary .not f => onlyNotAndOr f
  | .binary .and a b => onlyNotAndOr a && onlyNotAndOr b
  | .binary .or a b => onlyNotAndOr a && onlyNotAndOr b
  | .binary _ _ _ => false

/-- Every node is a variable, a negation or a conjunction: the target
basis of to_not_and. -/
def onlyNotAnd : Formula → Bool
  | .var _ => true
  | .const _ => false
  | .unary .not f => onlyNotAnd f
  | .binary .and a b => onlyNotAnd a && onlyNotAnd b
  | .binary _ _ _ => false

/-- Every node is a variable or a nand: the target basis of to_nand, with
no unary operator and no constant at all. -/
def onlyNand : Formula → Bool
  | .var _ => true
  | .binary .nand a b => onlyNand a && onlyNand b
  | _ => false

/-- Every node is a variable, a negation or an implication: the target
basis of to_implies_not. -/
def onlyImpliesNot : Formula → Bool
  | .var _ => true
  | .const _ => false
  | .unary .not f => onlyImpliesNot f
  | .binary .implies a b => onlyImpliesNot a && onlyImpliesNot b
  | .binary _ _ _ => false

/-- Every node is a variable, the constant F or an implication: the target
basis of to_implies_false. -/
def onlyImpliesFalse : Formula → Bool
  | .var _ => true
  | .const b => !b
  | .binary .implies a b => onlyImpliesFalse a && onlyImpliesFalse b
  | _ => false

/-- Every node is among those the inner convert of to_implies_false
handles without raising: variables, both constants, negation,
implication. -/
def handledImpliesFalse : Formula → Bool
  | .var _ => true
  | .const _ => true
  | .unary .not f => handledImpliesFalse f
  | .binary .implies a b => handledImpliesFalse a && handledImpliesFalse b
  | .binary _ _ _ => false

/-- Some node of the tree is a constant. -/
def hasConst : Formula → Bool
  | .var _ => false
  | .const _ => true
  | .unary _ f => hasConst f
  | .binary _ a b => hasConst a || hasConst b

/-- The computation succeeded (did not raise). -/
def exceptOk : Except String Formula → Bool
  | .ok _ => true
  | .error _ => false

/-! ## Helper lemmas about to_not_and_or -/

theorem evaluate_to_not_and_or (f : Formula) (v : String → Bool) :
    evaluate (to_not_and_or f) v = evaluate f v := by
  induction f with
  | var n => rfl
  | const b =>
    cases b <;> simp [to_not_and_or, Formula.variables, evaluate]
  | unary op f ih => cases op; simp [to_not_and_or, evaluate, ih]
  | binary op a b iha ihb =>
    cases op <;> simp only [to_not_and_or, evaluate, iha, ihb] <;>
      cases evaluate a v <;> cases evaluate b v <;> rfl

theorem onlyNotAndOr_to_not_and_or (f : Formula) :
    onlyNotAndOr (to_not_and_or f) = true := by
  induction f with
  | var n => rfl
  | const b => cases b <;> rfl
  | unary op f ih => cases op; simpa [to_not_and_or, onlyNotAndOr] using ih
  | binary op a b iha ihb =>
    cases op <;> simp [to_not_and_or, onlyNotAndOr, iha, ihb]

theorem to_not_and_or_eq_self (f : Formula) (h : onlyNotAndOr f = true) :
    to_not_and_or f = f := by
  induction f with
  | var n => rfl
  | const b => simp [onlyNotAndOr] at h
  | unary op f ih =>
    cases op
    simp only [onlyNotAndOr] at h
    simp [to_not_and_or, ih h]
  | binary op a b iha ihb =>
    cases op <;> simp_all [onlyNotAndOr, to_not_and_or]

/-! ## Helper lemmas about the four inner converts -/

theorem notAndConvert_spec (f : Formula) (h : onlyNotAndOr f = true) :
    ∃ g, notAndConvert f = .ok g ∧ onlyNotAnd g = true ∧
      ∀ v, evaluate g v = evaluate f v := by
  induction f with
  | var n => exact ⟨.var n, rfl, rfl, fun v => rfl⟩
  | const b => simp [onlyNotAndOr] at h
  | unary op f ih =>
    cases op
    simp only [onlyNotAndOr] at h
    obtain ⟨g, hg, hb, he⟩ := ih h
    refine ⟨.unary .not g, by simp [notAndConvert, hg], ?_, fun v => ?_⟩
    · simpa [onlyNotAnd] using hb
    · simp [evaluate, he]
  | binary op a b iha ihb =>
    cases op with
    | and =>
      simp only [onlyNotAndOr, Bool.and_eq_true] at h
      obtain ⟨ga, hga, hba, hea⟩ := iha h.1
      obtain ⟨gb, hgb, hbb, heb⟩ := ihb h.2
      refine ⟨.binary .and ga gb, by simp [notAndConvert, hga, hgb],
        ?_, fun v => ?_⟩
      · simp [onlyNotAnd, hba, hbb]
      · simp [evaluate, hea, heb]
    | or =>
      simp only [onlyNotAndOr, Bool.and_eq_true] at h
      obtain ⟨ga, hga, hba, hea⟩ := iha h.1
      obtain ⟨gb, hgb, hbb, heb⟩ := ihb h.2
      refine ⟨.unary .not
          (.binary .and (.unary .not ga) (.unary .not gb)),
        by simp [notAndConvert, hga, hgb], ?_, fun v => ?_⟩
      · simp [onlyNotAnd, hba, hbb]
      · simp only [evaluate, hea, heb]
        cases evaluate a v <;> cases evaluate b v <;> rfl
    | implies => simp [onlyNotAndOr] at h
    | xor => simp [onlyNotAndOr] at h
    | iff => simp [onlyNotAndOr] at h
    | nand => simp [onlyNotAndOr] at h
    | nor => simp [onlyNotAndOr] at h

theorem nandConvert_spec (f : Formula) (h : onlyNotAndOr f = true) :
    ∃ g, nandConvert f = .ok g ∧ onlyNand g = true ∧
      ∀ v, evaluate g v = evaluate f v := by
  induction f with
  | var n => exact ⟨.var n, rfl, rfl, fun v => rfl⟩
  | const b => simp [onlyNotAndOr] at h
  | unary op f ih =>
    cases op
    simp only [onlyNotAndOr] at h
    obtain ⟨g, hg, hb, he⟩ := ih h
    refine ⟨.binary .nand g g, by simp [nandConvert, hg], ?_, fun v => ?_⟩
    · simp [onlyNand, hb]
    · simp only [evaluate, he]
      cases evaluate f v <;> rfl
  | binary op a b iha ihb =>
    cases op with
    | and =>
      simp only [onlyNotAndOr, Bool.and_eq_true] at h
      obtain ⟨ga, hga, hba, hea⟩ := iha h.1
      obtain ⟨gb, hgb, hbb, heb⟩ := ihb h.2
      refine ⟨.binary .nand (.binary .nand ga gb) (.binary .nand ga gb),
        by simp [nandConvert, hga, hgb], ?_, fun v => ?_⟩
      · simp [onlyNand, hba, hbb]
      · simp only [evaluate, hea, heb]
        cases evaluate a v <;> cases evaluate b v <;> rfl
    | or =>
      simp only [onlyNotAndOr, Bool.and_eq_true] at h
      obtain ⟨ga, hga, hba, hea⟩ := iha h.1
      obtain ⟨gb, hgb, hbb, heb⟩ := ihb h.2
      refine ⟨.binary .nand (.binary .nand ga ga) (.binary .nand gb gb),
        by simp [nandConvert, hga, hgb], ?_, fun v => ?_⟩
      · simp [onlyNand, hba, hbb]
      · simp only [evaluate, hea, heb]
        cases evaluate a v <;> cases evaluate b v <;> rfl
    | implies => simp [onlyNotAndOr] at h
    | xor => simp [onlyNotAndOr] at h
    | iff => simp [onlyNotAndOr] at h
    | nand => simp [onlyNotAndOr] at h
    | nor => simp [onlyNotAndOr] at h

theorem impliesNotConvert_spec (f : Formula) (h : onlyNotAndOr f = true) :
    ∃ g, impliesNotConvert f = .ok g ∧ onlyImpliesNot g = true ∧
      ∀ v, evaluate g v = evaluate f v := by
  induction f with
  | var n => exact ⟨.var n, rfl, rfl, fun v => rfl⟩
  | const b => simp [onlyNotAndOr] at h
  | unary op f ih =>
    cases op
    simp only [onlyNotAndOr] at h
    obtain ⟨g, hg, hb, he⟩ := ih h
    refine ⟨.unary .not g, by simp [impliesNotConvert, hg], ?_, fun v => ?_⟩
    · simpa [onlyImpliesNot] using hb
    · simp [evaluate, he]
  | binary op a b iha ihb =>
    cases op with
    | and =>
      simp only [onlyNotAndOr, Bool.and_eq_true] at h
      obtain ⟨ga, hga, hba, hea⟩ := iha h.1
      obtain ⟨gb, hgb, hbb, heb⟩ := ihb h.2
      refine ⟨.unary .not (.binary .implies ga (.unary .not gb)),
        by simp [impliesNotConvert, hga, hgb], ?_, fun v => ?_⟩
      · simp [onlyImpliesNot, hba, hbb]
      · simp only [evaluate, hea, heb]
        cases evaluate a v <;> cases evaluate b v <;> rfl
    | or =>
      simp only [onlyNotAndOr, Bool.and_eq_true] at h
      obtain ⟨ga, hga, hba, hea⟩ := iha h.1
      obtain ⟨gb, hgb, hbb, heb⟩ := ihb h.2
      refine ⟨.binary .implies (.unary .not ga) gb,
        by simp [impliesNotConvert, hga, hgb], ?_, fun v => ?_⟩
      · simp [onlyImpliesNot, hba, hbb]
      · simp only [evaluate, hea, heb]
        cases evaluate a v <;> cases evaluate b v <;> rfl
    | implies => simp [onlyNotAndOr] at h
    | xor => simp [onlyNotAndOr] at h
    | iff => simp [onlyNotAndOr] at h
    | nand => simp [onlyNotAndOr] at h
    | nor => simp [onlyNotAndOr] at h

theorem impliesFalseConvert_spec (f : Formula) (h : onlyImpliesNot f = true) :
    ∃ g, impliesFalseConvert f = .ok g ∧ onlyImpliesFalse g = true ∧
      ∀ v, evaluate g v = evaluate f v := by
  induction f with
  | var n => exact ⟨.var n, rfl, rfl, fun v => rfl⟩
  | const b => simp [onlyImpliesNot] at h
  | unary op f ih =>
    cases op
    simp only [onlyImpliesNot] at h
    obtain ⟨g, hg, hb, he⟩ := ih h
    refine ⟨.binary .implies g (.const false),
      by simp [impliesFalseConvert, hg], ?_, fun v => ?_⟩
    · simp [onlyImpliesFalse, hb]
    · simp [evaluate, he]
  | binary op a b iha ihb =>
    cases op with
    | implies =>
      simp only [onlyImpliesNot, Bool.and_eq_true] at h
      obtain ⟨ga, hga, hba, hea⟩ := iha h.1
      obtain ⟨gb, hgb, hbb, heb⟩ := ihb h.2
      refine ⟨.binary .implies ga gb,
        by simp [impliesFalseConvert, hga, hgb], ?_, fun v => ?_⟩
      · simp [onlyImpliesFalse, hba, hbb]
      · simp [evaluate, hea, heb]
    | and => simp [onlyImpliesNot] at h
    | or => simp [onlyImpliesNot] at h
    | xor => simp [onlyImpliesNot] at h
    | iff => simp [onlyImpliesNot] at h
    | nand => simp [onlyImpliesNot] at h
    | nor => simp [onlyImpliesNot] at h

/-! ## Error characterization: a convert raises exactly on an out-of-set node -/

theorem exceptOk_notAndConvert (f : Formula) :
    exceptOk (notAndConvert f) = onlyNotAndOr f := by
  induction f with
  | var n => rfl
  | const b => cases b <;> rfl
  | unary op f ih =>
    cases op
    cases h : notAndConvert f with
    | ok g => simp [notAndConvert, h, exceptOk, onlyNotAndOr, ← ih]
    | error e => simp [notAndConvert, h, exceptOk, onlyNotAndOr, ← ih]
  | binary op a b iha ihb =>
    cases op with
    | and =>
      cases ha : notAndConvert a with
      | error e =>
        simp [notAndConvert, ha, exceptOk, onlyNotAndOr, ← iha]
      | ok ga =>
        cases hb : notAndConvert b with
        | error e =>
          simp [notAndConvert, ha, hb, exceptOk, onlyNotAndOr, ← iha, ← ihb]
        | ok gb =>
          simp [notAndConvert, ha, hb, exceptOk, onlyNotAndOr, ← iha, ← ihb]
    | or =>
      cases ha : notAndConvert a with
      | error e =>
        simp [notAndConvert, ha, exceptOk, onlyNotAndOr, ← iha]
      | ok ga =>
        cases hb : notAndConvert b with
        | error e =>
          simp [notAndConvert, ha, hb, exceptOk, onlyNotAndOr, ← iha, ← ihb]
        | ok gb =>
          simp [notAndConvert, ha, hb, exceptOk, onlyNotAndOr, ← iha, ← ihb]
    | implies => rfl
    | xor => rfl
    | iff => rfl
    | nand => rfl
    | nor => rfl

theorem exceptOk_nandConvert (f : Formula) :
    exceptOk (nandConvert f) = onlyNotAndOr f := by
  induction f with
  | var n => rfl
  | const b => cases b <;> rfl
  | unary op f ih =>
    cases op
    cases h : nandConvert f with
    | ok g => simp [nandConvert, h, exceptOk, onlyNotAndOr, ← ih]
    | error e => simp [nandConvert, h, exceptOk, onlyNotAndOr, ← ih]
  | binary op a b iha ihb =>
    cases op with
    | and =>
      cases ha : nandConvert a with
      | error e =>
        simp [nandConvert, ha, exceptOk, onlyNotAndOr, ← iha]
      | ok ga =>
        cases hb : nandConvert b with
        | error e =>
          simp [nandConvert, ha, hb, exceptOk, onlyNotAndOr, ← iha, ← ihb]
        | ok gb =>
          simp [nandConvert, ha, hb, exceptOk, onlyNotAndOr, ← iha, ← ihb]
    | or =>
      cases ha : nandConvert a with
      | error e =>
        simp [nandConvert, ha, exceptOk, onlyNotAndOr, ← iha]
      | ok ga =>
        cases hb : nandConvert b with
        | error e =>
          simp [nandConvert, ha, hb, exceptOk, onlyNotAndOr, ← iha, ← ihb]
        | ok gb =>
          simp [nandConvert, ha, hb, exceptOk, onlyNotAndOr, ← iha, ← ihb]
    | implies => rfl
    | xor => rfl
    | iff => rfl
    | nand => rfl
    | nor => rfl

theorem exceptOk_impliesNotConvert (f : Formula) :
    exceptOk (impliesNotConvert f) = onlyNotAndOr f := by
  induction f with
  | var n => rfl
  | const b => cases b <;> rfl
  | unary op f ih =>
    cases op
    cases h : impliesNotConvert f with
    | ok g => simp [impliesNotConvert, h, exceptOk, onlyNotAndOr, ← ih]
    | error e => simp [impliesNotConvert, h, exceptOk, onlyNotAndOr, ← ih]
  | binary op a b iha ihb =>
    cases op with
    | and =>
      cases ha : impliesNotConvert a with
      | error e =>
        simp [impliesNotConvert, ha, exceptOk, onlyNotAndOr, ← iha]
      | ok ga =>
        cases hb : impliesNotConvert b with
        | error e =>
          simp [impliesNotConvert, ha, hb, exceptOk, onlyNotAndOr,
            ← iha, ← ihb]
        | ok gb =>
          simp [impliesNotConvert, ha, hb, exceptOk, onlyNotAndOr,
            ← iha, ← ihb]
    | or =>
      cases ha : impliesNotConvert a with
      | error e =>
        simp [impliesNotConvert, ha, exceptOk, onlyNotAndOr, ← iha]
      | ok ga =>
        cases hb : impliesNotConvert b with
        | error e =>
          simp [impliesNotConvert, ha, hb, exceptOk, onlyNotAndOr,
            ← iha, ← ihb]
        | ok gb =>
          simp [impliesNotConvert, ha, hb, exceptOk, onlyNotAndOr,
            ← iha, ← ihb]
    | implies => rfl
    | xor => rfl
    | iff => rfl
    | nand => rfl
    | nor => rfl

theorem exceptOk_impliesFalseConvert (f : Formula) :
    exceptOk (impliesFalseConvert f) = handledImpliesFalse f := by
  induction f with
  | var n => rfl
  | const b => cases b <;> rfl
  | unary op f ih =>
    cases op
    cases h : impliesFalseConvert f with
    | ok g =>
      simp [impliesFalseConvert, h, exceptOk, handledImpliesFalse, ← ih]
    | error e =>
      simp [impliesFalseConvert, h, exceptOk, handledImpliesFalse, ← ih]
  | binary op a b iha ihb =>
    cases op with
    | implies =>
      cases ha : impliesFalseConvert a with
      | error e =>
        simp [impliesFalseConvert, ha, exceptOk, handledImpliesFalse, ← iha]
      | ok ga =>
        cases hb : impliesFalseConvert b with
        | error e =>
          simp [impliesFalseConvert, ha, hb, exceptOk, handledImpliesFalse,
            ← iha, ← ihb]
        | ok gb =>
          simp [impliesFalseConvert, ha, hb, exceptOk, handledImpliesFalse,
            ← iha, ← ihb]
    | and => rfl
    | or => rfl
    | xor => rfl
    | iff => rfl
    | nand => rfl
    | nor => rfl

/-- A formula in the implies-not basis contains no constant node. -/
theorem onlyImpliesNot_hasConst (f : Formula)
    (h : onlyImpliesNot f = true) : hasConst f = false := by
  induction f with
  | var n => rfl
  | const b => simp [onlyImpliesNot] at h
  | unary op f ih =>
    cases op
    simp only [onlyImpliesNot] at h
    simpa [hasConst] using ih h
  | binary op a b iha ihb =>
    cases op <;> simp_all [onlyImpliesNot, hasConst]

/-- Following the wording of the implicit witness claim, for comparison
with the source translation to_not_and_or: the same recursive rewrite,
but with every eliminated constant replaced by a formula over the single
fixed variable name p, with no lookup of any variable set. -/
def toNotAndOrFixedP : Formula → Formula
  | .var n => .var n
  | .const b =>
    if b then
      .binary .or (.var "p") (.unary .not (.var "p"))
    else
      .binary .and (.var "p") (.unary .not (.var "p"))
  | .unary .not f => .unary .not (toNotAndOrFixedP f)
  | .binary op a b =>
    let left := toNotAndOrFixedP a
    let right := toNotAndOrFixedP b
    match op with
    | .and => .binary .and left right
    | .or => .binary .or left right
    | .implies => .binary .or (.unary .not left) right
    | .xor =>
      .binary .or (.binary .and left (.unary .not right))
        (.binary .and (.unary .not left) right)
    | .iff =>
      .binary .or (.binary .and left right)
        (.binary .and (.unary .not left) (.unary .not right))
    | .nand => .unary .not (.binary .and left right)
    | .nor => .unary .not (.binary .or left right)

/-! ## Claim theorems -/

/-- C1: for every formula over the full operator set and every truth
assignment, each of the five reductions returns a formula that evaluates
to the same truth value as the input: to_not_and_or directly, and the
four fallible reductions succeed with such a formula. -/
theorem equivalence_preservation_all (f : Formula) (v : String → Bool) :
    evaluate (to_not_and_or f) v = evaluate f v ∧
    (to_not_and f).map (fun g => evaluate g v) = .ok (evaluate f v) ∧
    (to_nand f).map (fun g => evaluate g v) = .ok (evaluate f v) ∧
    (to_implies_not f).map (fun g => evaluate g v) = .ok (evaluate f v) ∧
    (to_implies_false f).map (fun g => evaluate g v)
      = .ok (evaluate f v) := by
  have hbasis := onlyNotAndOr_to_not_and_or f
  refine ⟨evaluate_to_not_and_or f v, ?_, ?_, ?_, ?_⟩
  · obtain ⟨g, hg, _, he⟩ := notAndConvert_spec _ hbasis
    simp [to_not_and, hg, Except.map, he, evaluate_to_not_and_or]
  · obtain ⟨g, hg, _, he⟩ := nandConvert_spec _ hbasis
    simp [to_nand, hg, Except.map, he, evaluate_to_not_and_or]
  · obtain ⟨g, hg, _, he⟩ := impliesNotConvert_spec _ hbasis
    simp [to_implies_not, hg, Except.map, he, evaluate_to_not_and_or]
  · obtain ⟨g, hg, hb, he⟩ := impliesNotConvert_spec _ hbasis
    obtain ⟨g2, hg2, _, he2⟩ := impliesFalseConvert_spec g hb
    simp [to_implies_false, to_implies_not, hg, hg2, Except.map, he2, he,
      evaluate_to_not_and_or]

/-- C2: basis closure of all five reductions: the to_not_and_or output
uses only variables, negation, conjunction, disjunction; the to_not_and
output only variables, negation, conjunction; the to_nand output only
variables and nand, with no unary operator; the to_implies_not output
only variables, implication, negation; the to_implies_false output only
variables, implication and the constant F. -/
theorem basis_closure_all (f : Formula) :
    onlyNotAndOr (to_not_and_or f) = true ∧
    (to_not_and f).map onlyNotAnd = .ok true ∧
    (to_nand f).map onlyNand = .ok true ∧
    (to_implies_not f).map onlyImpliesNot = .ok true ∧
    (to_implies_false f).map onlyImpliesFalse = .ok true := by
  have hbasis := onlyNotAndOr_to_not_and_or f
  refine ⟨hbasis, ?_, ?_, ?_, ?_⟩
  · obtain ⟨g, hg, hb, _⟩ := notAndConvert_spec _ hbasis
    simp [to_not_and, hg, Except.map, hb]
  · obtain ⟨g, hg, hb, _⟩ := nandConvert_spec _ hbasis
    simp [to_nand, hg, Except.map, hb]
  · obtain ⟨g, hg, hb, _⟩ := impliesNotConvert_spec _ hbasis
    simp [to_implies_not, hg, Except.map, hb]
  · obtain ⟨g, hg, hb, _⟩ := impliesNotConvert_spec _ hbasis
    obtain ⟨g2, hg2, hb2, _⟩ := impliesFalseConvert_spec g hb
    simp [to_implies_false, to_implies_not, hg, hg2, Except.map, hb2]

/-- C3 counterexample: on the input (q AND T), whose variable set is the
nonempty set containing q, the constant T is nevertheless replaced by the
tautology over the default name p, which does not occur in the input, so
the witness is not a variable of the original formula. -/
theorem witness_from_original_cex :
    to_not_and_or (.binary .and (.var "q") (.const true))
      = .binary .and (.var "q")
          (.binary .or (.var "p") (.unary .not (.var "p"))) ∧
    (Formula.binary .and (.var "q") (.const true)).variables = ["q"] ∧
    "p" ∉ (Formula.binary .and (.var "q") (.const true)).variables := by
  refine ⟨rfl, by decide, by decide⟩

/-- C3 as amended: the witness lookup inspects only the constant node
being rewritten, whose variable set is empty, so the fixed default name p
is used for every eliminated constant; hence whenever the input contains
a constant, the variable p occurs in the output, whether or not p or any
other variable occurs in the input. -/
theorem witness_default_always (f : Formula) (h : hasConst f = true) :
    "p" ∈ (to_not_and_or f).variables := by
  induction f with
  | var n => simp [hasConst] at h
  | const b => cases b <;> decide
  | unary op f ih =>
    cases op
    simp only [hasConst] at h
    simpa [to_not_and_or, Formula.variables] using ih h
  | binary op a b iha ihb =>
    simp only [hasConst, Bool.or_eq_true] at h
    have hab : "p" ∈ (to_not_and_or a).variables ∨
        "p" ∈ (to_not_and_or b).variables := by
      cases h with
      | inl h => exact Or.inl (iha h)
      | inr h => exact Or.inr (ihb h)
    cases op <;>
      simp [to_not_and_or, Formula.variables, List.mem_dedup,
        List.mem_append] <;> tauto

/-- Witness for the amended C3 at the concrete input (q AND T). -/
theorem witness_default_always_witness :
    hasConst (Formula.binary .and (.var "q") (.const true)) = true ∧
    "p" ∈ (to_not_and_or
      (Formula.binary .and (.var "q") (.const true))).variables :=
  ⟨by decide, witness_default_always
    (Formula.binary .and (.var "q") (.const true)) (by decide)⟩

/-- C4: each inner convert raises exactly when some node of the tree it
processes carries an operator outside the set that stage handles (the
not-and-or basis for the converts of to_not_and, to_nand and
to_implies_not; variables, constants, negation and implication for the
convert of to_implies_false), to_not_and_or itself handles every
well-formed root by construction and is total, and on every well-formed
input all four fallible top-level reductions succeed, so there is no
other failure mode. -/
theorem error_taxonomy_all (f : Formula) :
    exceptOk (notAndConvert f) = onlyNotAndOr f ∧
    exceptOk (nandConvert f) = onlyNotAndOr f ∧
    exceptOk (impliesNotConvert f) = onlyNotAndOr f ∧
    exceptOk (impliesFalseConvert f) = handledImpliesFalse f ∧
    exceptOk (to_not_and f) = true ∧
    exceptOk (to_nand f) = true ∧
    exceptOk (to_implies_not f) = true ∧
    exceptOk (to_implies_false f) = true := by
  have hbasis := onlyNotAndOr_to_not_and_or f
  refine ⟨exceptOk_notAndConvert f, exceptOk_nandConvert f,
    exceptOk_impliesNotConvert f, exceptOk_impliesFalseConvert f,
    ?_, ?_, ?_, ?_⟩
  · rw [to_not_and, exceptOk_notAndConvert, hbasis]
  · rw [to_nand, exceptOk_nandConvert, hbasis]
  · rw [to_implies_not, exceptOk_impliesNotConvert, hbasis]
  · obtain ⟨g, hg, hb, _⟩ := impliesNotConvert_spec _ hbasis
    obtain ⟨g2, hg2, _, _⟩ := impliesFalseConvert_spec g hb
    simp [to_implies_false, to_implies_not, hg, hg2, exceptOk]

/-- C5: to_not_and_or maps the single-node formula T to a constant-free
tautology and the single-node formula F to a constant-free
contradiction. -/
theorem constant_elimination :
    (hasConst (to_not_and_or (.const true)) = false ∧
      ∀ v : String → Bool,
        evaluate (to_not_and_or (.const true)) v = true) ∧
    (hasConst (to_not_and_or (.const false)) = false ∧
      ∀ v : String → Bool,
        evaluate (to_not_and_or (.const false)) v = false) := by
  refine ⟨⟨rfl, fun v => ?_⟩, ⟨rfl, fun v => ?_⟩⟩ <;>
    simp [to_not_and_or, Formula.variables, evaluate]

/-- C6: applying to_not_and_or twice keeps the operator set within
negation, conjunction, disjunction, and the result has the same truth
table as a single application.  In fact the second application is the
identity on the already-reduced tree. -/
theorem idempotence_on_reduced (f : Formula) :
    onlyNotAndOr (to_not_and_or (to_not_and_or f)) = true ∧
    ∀ v : String → Bool,
      evaluate (to_not_and_or (to_not_and_or f)) v
        = evaluate (to_not_and_or f) v := by
  rw [to_not_and_or_eq_self _ (onlyNotAndOr_to_not_and_or f)]
  exact ⟨onlyNotAndOr_to_not_and_or f, fun v => rfl⟩

/-- C7: to_not_and_or rewrites the formula (p IMPLIES q) to exactly
((NOT p) OR q), and the output agrees with the input under every
assignment, in particular under all four assignments to p and q. -/
theorem implies_concrete_scenario :
    to_not_and_or (.binary .implies (.var "p") (.var "q"))
      = .binary .or (.unary .not (.var "p")) (.var "q") ∧
    ∀ v : String → Bool,
      evaluate (to_not_and_or (.binary .implies (.var "p") (.var "q"))) v
        = evaluate (.binary .implies (.var "p") (.var "q")) v :=
  ⟨rfl, fun v => evaluate_to_not_and_or _ v⟩

/-- C8: on the bare constant T, which has no variables, to_not_and_or
does not fail: it falls back to the default name p and returns the
tautology (p OR NOT p), whose variable set is exactly the singleton p. -/
theorem default_variable_fallback :
    to_not_and_or (.const true)
      = .binary .or (.var "p") (.unary .not (.var "p")) ∧
    (Formula.const true).variables = [] ∧
    (to_not_and_or (.const true)).variables = ["p"] ∧
    ∀ v : String → Bool,
      evaluate (to_not_and_or (.const true)) v = true := by
  refine ⟨rfl, rfl, by decide, fun v => ?_⟩
  simp [to_not_and_or, Formula.variables, evaluate]

/-- C9: the witness lookup in the constant case of to_not_and_or inspects
only the constant node itself, whose variable set is empty, so every
eliminated constant is replaced by a formula over the single fixed name
p, regardless of which variables occur elsewhere in the input: the source
translation coincides with the variant that hard-codes p. -/
theorem constant_replacement_fixed_p (f : Formula) :
    to_not_and_or f = toNotAndOrFixedP f := by
  induction f with
  | var n => rfl
  | const b => cases b <;> rfl
  | unary op f ih => cases op; simp [to_not_and_or, toNotAndOrFixedP, ih]
  | binary op a b iha ihb =>
    cases op <;> simp [to_not_and_or, toNotAndOrFixedP, iha, ihb]

/-- C10 counterexample: on the input (NOT p) the reduction to_implies_false
returns (p IMPLIES F), whose tree does contain a constant node, namely F,
introduced by the negation rewrite, so the output is not constant
free. -/
theorem implies_false_constant_cex :
    to_implies_false (.unary .not (.var "p"))
      = .ok (.binary .implies (.var "p") (.const false)) ∧
    hasConst (Formula.binary .implies (.var "p") (.const false)) = true :=
  ⟨rfl, rfl⟩

/-- C10 as amended: the input handed to the final convert, namely the
to_implies_not form, is indeed constant-free, so the branches of that
convert handling the constants F and T are never reached; but the
negation rewrite introduces the constant F, so the output is only
guaranteed to lie in the basis of variables, implication and the
constant F. -/
theorem implies_false_dead_branches (f : Formula) :
    (to_implies_not f).map hasConst = .ok false ∧
    (to_implies_false f).map onlyImpliesFalse = .ok true := by
  obtain ⟨g, hg, hb, _⟩ :=
    impliesNotConvert_spec _ (onlyNotAndOr_to_not_and_or f)
  obtain ⟨g2, hg2, hb2, _⟩ := impliesFalseConvert_spec g hb
  constructor
  · simp [to_implies_not, hg, Except.map, onlyImpliesNot_hasConst g hb]
  · simp [to_implies_false, to_implies_not, hg, hg2, Except.map, hb2]
